import Mathlib

/-!
Verification development for the Quant_Banana repository.

The repository ships a Vue 3 frontend (trading store, WebSocket pub/sub
service, dashboard components) together with documentation of a backend
signal-fusion core (`backend/core/trading_engine/signal_fusion.py` and the
performance tracker) that is not part of the provided sources.  The fusion
engine and the performance tracker are therefore modelled from the
specification text; the event bus and the trading store are shallow
embeddings of the JavaScript sources (`src/unnamed/part_005`,
`src/unnamed/part_000`).

Real-number quantities (weights, confidences, position ratios) are modelled
over `ℚ`, so every arithmetic statement is exact.
-/

namespace QuantBanana

/-! ## Signal fusion engine (modelled from the spec, §4.3) -/

/-- Trading direction of a signal or decision. -/
inductive Direction
  | buy
  | sell
  | hold
deriving DecidableEq, Repr

/-- Modelled from the spec: a `Signal` carries a direction and a confidence
in the range 0–100.  The symbol, reason, stop/target prices and timestamp of
the spec data model are omitted: none of the modelled operations on signals
reads them (the risk/reward quality gate would need a reference entry price
that is not among the inputs of `fuse`, so it is not modelled). -/
structure Signal where
  direction : Direction
  confidence : ℚ
deriving DecidableEq, Repr

/-- Fusion type of a decision, per the spec data model. -/
inductive FusionType
  | enhanced
  | conflictResolved
  | singleSource
  | conservativeHold
deriving DecidableEq, Repr

/-- Modelled from the spec: the fused decision.  Contributing signals,
symbol, stop/target and timestamp are omitted as above. -/
structure FusionDecision where
  direction : Direction
  confidence : ℚ
  positionWeight : ℚ
  fusionType : FusionType
deriving DecidableEq, Repr

/-- Current trust weights of the two signal sources. -/
structure SourceWeights where
  strategy : ℚ
  ai : ℚ
deriving DecidableEq, Repr

/-- Modelled from the spec: the configuration surface of the fusion engine
(agreement bonus, conflict threshold and penalty, holdout and single-source
discount factors, minimum confidence, maximum position ratio). -/
structure FusionConfig where
  agreementBonus : ℚ
  conflictThreshold : ℚ
  conflictPenalty : ℚ
  holdoutPenalty : ℚ
  singlePenalty : ℚ
  minConfidence : ℚ
  maxPositionRatio : ℚ
deriving DecidableEq, Repr

/-- Error taxonomy of the fusion engine that is visible at the `fuse`
boundary: `invalidInput` when both signals are absent. -/
inductive FuseError
  | invalidInput
deriving DecidableEq, Repr

/-- Direction sign used by the conflict score: +1 for BUY, −1 for SELL,
0 for HOLD. -/
def dirSign : Direction → ℚ
  | Direction.buy => 1
  | Direction.sell => -1
  | Direction.hold => 0

/-- Position weight scales proportionally to fused confidence, capped at
`max_position_ratio` (spec §4.3 step 1). -/
def positionFor (cfg : FusionConfig) (conf : ℚ) : ℚ :=
  min (conf / 100) cfg.maxPositionRatio

/-- Modelled from the spec: both signals present with the same non-HOLD
direction.  Fused confidence is the weighted average of the two confidences
plus the agreement bonus, capped at 100; fusion type ENHANCED. -/
def combineSame (cfg : FusionConfig) (w : SourceWeights) (s a : Signal) : FusionDecision :=
  let conf := min (w.strategy * s.confidence + w.ai * a.confidence + cfg.agreementBonus) 100
  { direction := s.direction
    confidence := conf
    positionWeight := positionFor cfg conf
    fusionType := FusionType.enhanced }

/-- Signed conflict score: weight × confidence × direction sign, summed over
the two sources (spec §4.3 step 2). -/
def signedSum (w : SourceWeights) (s a : Signal) : ℚ :=
  w.strategy * s.confidence * dirSign s.direction
    + w.ai * a.confidence * dirSign a.direction

/-- Modelled from the spec: both signals present with opposite non-HOLD
directions.  If the absolute signed sum reaches the conflict threshold the
winner direction is kept with a penalised confidence (CONFLICT_RESOLVED);
otherwise the engine holds back (CONSERVATIVE_HOLD, position weight 0,
confidence reflecting the indecision as the small absolute score). -/
def combineConflict (cfg : FusionConfig) (w : SourceWeights) (s a : Signal) : FusionDecision :=
  let sum := signedSum w s a
  if |sum| < cfg.conflictThreshold then
    { direction := Direction.hold
      confidence := |sum|
      positionWeight := 0
      fusionType := FusionType.conservativeHold }
  else
    let conf := |sum| * cfg.conflictPenalty
    { direction := if 0 < sum then Direction.buy else Direction.sell
      confidence := conf
      positionWeight := positionFor cfg conf
      fusionType := FusionType.singleSource }

/-- Modelled from the spec: decision built from one contributing signal with
a discount `factor` (holdout penalty in the one-side-HOLD case, heavier
single-source penalty when the pairing window expired); fusion type
SINGLE_SOURCE.  A HOLD signal yields a HOLD decision with no position. -/
def singleFrom (cfg : FusionConfig) (sig : Signal) (factor : ℚ) : FusionDecision :=
  if sig.direction = Direction.hold then
    { direction := Direction.hold
      confidence := sig.confidence * factor
      positionWeight := 0
      fusionType := FusionType.singleSource }
  else
    let conf := sig.confidence * factor
    { direction := sig.direction
      confidence := conf
      positionWeight := positionFor cfg conf
      fusionType := FusionType.singleSource }

/-- Modelled from the spec: both signals say HOLD; the engine holds with no
position. -/
def bothHold (w : SourceWeights) (s a : Signal) : FusionDecision :=
  { direction := Direction.hold
    confidence := w.strategy * s.confidence + w.ai * a.confidence
    positionWeight := 0
    fusionType := FusionType.conservativeHold }

/-- Modelled from the spec, §4.3 step 5: the quality gates.  A fused
confidence below `min_confidence` downgrades the decision to HOLD with
position weight 0; otherwise the position weight is clamped at
`max_position_ratio`.  The risk/reward gate is not modelled (see `Signal`);
the cooldown gate lives upstream in the orchestrator. -/
def applyGates (cfg : FusionConfig) (d : FusionDecision) : FusionDecision :=
  if d.confidence < cfg.minConfidence then
    { d with direction := Direction.hold, positionWeight := 0 }
  else
    { d with positionWeight := min d.positionWeight cfg.maxPositionRatio }

/-- Modelled from the spec: `fuse(symbol, strategySignal?, aiSignal?,
weights)`.  Requires at least one non-null signal and fails with
`invalidInput` when both are null; otherwise it dispatches on the direction
pattern of the present signals (spec §4.3 steps 1–4) and applies the quality
gates.  The function is total and stateless, so the `invalidInput` failure
is confined to the one call that produced it. -/
def fuse (cfg : FusionConfig) (w : SourceWeights) :
    Option Signal → Option Signal → Except FuseError FusionDecision
  | Option.none, Option.none => Except.error FuseError.invalidInput
  | Option.some s, Option.none =>
      Except.ok (applyGates cfg (singleFrom cfg s cfg.singlePenalty))
  | Option.none, Option.some a =>
      Except.ok (applyGates cfg (singleFrom cfg a cfg.singlePenalty))
  | Option.some s, Option.some a =>
      Except.ok (applyGates cfg (
        if s.direction = a.direction then
          if s.direction = Direction.hold then bothHold w s a
          else combineSame cfg w s a
        else if s.direction = Direction.hold then singleFrom cfg a cfg.holdoutPenalty
        else if a.direction = Direction.hold then singleFrom cfg s cfg.holdoutPenalty
        else combineConflict cfg w s a))

/-- When the fused confidence reaches `min_confidence`, the gates only clamp
the position weight and preserve direction, confidence and fusion type. -/
theorem applyGates_pass (cfg : FusionConfig) (d : FusionDecision)
    (h : cfg.minConfidence ≤ d.confidence) :
    (applyGates cfg d).direction = d.direction ∧
    (applyGates cfg d).confidence = d.confidence ∧
    (applyGates cfg d).fusionType = d.fusionType := by
  unfold applyGates
  rw [if_neg (not_lt.mpr h)]
  exact ⟨rfl, rfl, rfl⟩

/-- C1: with both signals present and the same non-HOLD direction, strategy
weight 0.45, AI weight 0.55, strategy confidence 70 (BUY) and AI confidence
80 (BUY), the fused decision has confidence `min (75.5 + agreement_bonus)
100`, fusion type ENHANCED and direction BUY.  The bonus is nonnegative and
the minimum-confidence gate does not fire (`min_confidence ≤ 75.5`), so the
quality gates leave the decision intact. -/
theorem fuse_enhanced_weighted_average (cfg : FusionConfig)
    (hb : 0 ≤ cfg.agreementBonus) (hmc : cfg.minConfidence ≤ 151 / 2) :
    ∃ d, fuse cfg ⟨9 / 20, 11 / 20⟩
        (some ⟨Direction.buy, 70⟩) (some ⟨Direction.buy, 80⟩) = Except.ok d ∧
      d.confidence = min (151 / 2 + cfg.agreementBonus) 100 ∧
      d.fusionType = FusionType.enhanced ∧
      d.direction = Direction.buy := by
  have h75 : (9 / 20 : ℚ) * 70 + 11 / 20 * 80 + cfg.agreementBonus
      = 151 / 2 + cfg.agreementBonus := by ring
  have hge : cfg.minConfidence ≤ min (151 / 2 + cfg.agreementBonus) 100 := by
    refine le_min (le_trans hmc (by linarith)) (le_trans hmc (by norm_num))
  have hconf : (combineSame cfg ⟨9 / 20, 11 / 20⟩
      ⟨Direction.buy, 70⟩ ⟨Direction.buy, 80⟩).confidence
      = min (151 / 2 + cfg.agreementBonus) 100 := by
    show min ((9 / 20 : ℚ) * 70 + 11 / 20 * 80 + cfg.agreementBonus) 100 = _
    rw [h75]
  obtain ⟨h1, h2, h3⟩ := applyGates_pass cfg
    (combineSame cfg ⟨9 / 20, 11 / 20⟩ ⟨Direction.buy, 70⟩ ⟨Direction.buy, 80⟩)
    (le_of_le_of_eq hge hconf.symm)
  exact ⟨_, rfl, h2.trans hconf, h3.trans rfl, h1.trans rfl⟩

/-- Witness for C1 at a concrete configuration: agreement bonus 10 and
minimum confidence 60, giving fused confidence 85.5. -/
theorem fuse_enhanced_weighted_average_witness :
    ∃ d, fuse ⟨10, 30, 1 / 2, 7 / 10, 1 / 2, 60, 3 / 10⟩ ⟨9 / 20, 11 / 20⟩
        (some ⟨Direction.buy, 70⟩) (some ⟨Direction.buy, 80⟩) = Except.ok d ∧
      d.confidence = min (151 / 2 + (10 : ℚ)) 100 ∧
      d.fusionType = FusionType.enhanced ∧
      d.direction = Direction.buy :=
  fuse_enhanced_weighted_average ⟨10, 30, 1 / 2, 7 / 10, 1 / 2, 60, 3 / 10⟩
    (by norm_num) (by norm_num)

/-- C2: with both signals present in opposite non-HOLD directions and the
absolute weighted signed sum strictly below the conflict threshold, the
fused decision is CONSERVATIVE_HOLD with direction HOLD and position weight
0 (the quality gates preserve all three fields). -/
theorem fuse_conflict_below_threshold_holds (cfg : FusionConfig)
    (w : SourceWeights) (s a : Signal)
    (hd : (s.direction = Direction.buy ∧ a.direction = Direction.sell) ∨
      (s.direction = Direction.sell ∧ a.direction = Direction.buy))
    (hmax : 0 ≤ cfg.maxPositionRatio)
    (hlt : |signedSum w s a| < cfg.conflictThreshold) :
    ∃ d, fuse cfg w (some s) (some a) = Except.ok d ∧
      d.fusionType = FusionType.conservativeHold ∧
      d.direction = Direction.hold ∧
      d.positionWeight = 0 := by
  have hne : ¬ s.direction = a.direction := by
    rcases hd with ⟨hs, ha⟩ | ⟨hs, ha⟩ <;> rw [hs, ha] <;> exact fun h => by cases h
  have hsh : ¬ s.direction = Direction.hold := by
    rcases hd with ⟨hs, _⟩ | ⟨hs, _⟩ <;> rw [hs] <;> exact fun h => by cases h
  have hah : ¬ a.direction = Direction.hold := by
    rcases hd with ⟨_, ha⟩ | ⟨_, ha⟩ <;> rw [ha] <;> exact fun h => by cases h
  refine ⟨_, rfl, ?_⟩
  rw [if_neg hne, if_neg hsh, if_neg hah, combineConflict]
  rw [if_pos hlt]
  by_cases hg : |signedSum w s a| < cfg.minConfidence
  · simp [applyGates, hg]
  · simp [applyGates, hg, min_eq_left hmax]

/-- Witness for C2 at the spec numbers: strategy BUY confidence 60 and AI
SELL confidence 90 with weights 0.45 and 0.55 give signed sum −22.5, whose
absolute value is below the threshold 30. -/
theorem fuse_conflict_below_threshold_holds_witness :
    ∃ d, fuse ⟨10, 30, 1 / 2, 7 / 10, 1 / 2, 60, 3 / 10⟩ ⟨9 / 20, 11 / 20⟩
        (some ⟨Direction.buy, 60⟩) (some ⟨Direction.sell, 90⟩) = Except.ok d ∧
      d.fusionType = FusionType.conservativeHold ∧
      d.direction = Direction.hold ∧
      d.positionWeight = 0 :=
  fuse_conflict_below_threshold_holds ⟨10, 30, 1 / 2, 7 / 10, 1 / 2, 60, 3 / 10⟩
    ⟨9 / 20, 11 / 20⟩ ⟨Direction.buy, 60⟩ ⟨Direction.sell, 90⟩
    (Or.inl ⟨rfl, rfl⟩) (by norm_num)
    (by
      have h : signedSum ⟨9 / 20, 11 / 20⟩ ⟨Direction.buy, 60⟩ ⟨Direction.sell, 90⟩
          = -45 / 2 := by
        show (9 / 20 : ℚ) * 60 * 1 + 11 / 20 * 90 * (-1) = -45 / 2
        norm_num
      rw [h, abs_of_nonpos (by norm_num)]
      norm_num)

/-- C4: `fuse` fails with `invalidInput` exactly when both signals are
null, and with at least one non-null signal it returns a decision.  As
`fuse` is a total, stateless function, the failure is confined to the one
call, never to the enclosing process. -/
theorem fuse_invalid_iff_both_none (cfg : FusionConfig) (w : SourceWeights)
    (s a : Option Signal) :
    (fuse cfg w s a = Except.error FuseError.invalidInput ↔
      s = none ∧ a = none) ∧
    (s ≠ none ∨ a ≠ none → ∃ d, fuse cfg w s a = Except.ok d) := by
  cases s <;> cases a <;> simp [fuse]

/-- Witness for C4: both directions of the characterisation at concrete
inputs — two null signals fail with `invalidInput`, a single strategy
signal produces a decision. -/
theorem fuse_invalid_iff_both_none_witness :
    fuse ⟨10, 30, 1 / 2, 7 / 10, 1 / 2, 60, 3 / 10⟩ ⟨9 / 20, 11 / 20⟩ none none
      = Except.error FuseError.invalidInput ∧
    ∃ d, fuse ⟨10, 30, 1 / 2, 7 / 10, 1 / 2, 60, 3 / 10⟩ ⟨9 / 20, 11 / 20⟩
      (some ⟨Direction.buy, 70⟩) none = Except.ok d :=
  ⟨(fuse_invalid_iff_both_none ⟨10, 30, 1 / 2, 7 / 10, 1 / 2, 60, 3 / 10⟩
      ⟨9 / 20, 11 / 20⟩ none none).1.mpr ⟨rfl, rfl⟩,
    (fuse_invalid_iff_both_none ⟨10, 30, 1 / 2, 7 / 10, 1 / 2, 60, 3 / 10⟩
      ⟨9 / 20, 11 / 20⟩ (some ⟨Direction.buy, 70⟩) none).2
      (Or.inl (by simp))⟩

/-! ## Performance tracker (modelled from the spec, §4.4) -/

/-- The two signal sources whose outcomes are tracked. -/
inductive SignalSource
  | strategy
  | ai
deriving DecidableEq, Repr

/-- Modelled from the spec: per-source performance record — the bounded
outcome history (most recent last), the current trust weight, and a flag
recording whether new outcomes arrived since the last weight recomputation.
The flag realises the §8 idempotence property (recomputing twice with no
new outcomes must not change any weight) together with the §4.4 rule that a
source with no recorded outcomes keeps its prior weight for the cycle. -/
structure SourcePerformance where
  outcomes : List Bool
  weight : ℚ
  pending : Bool
deriving DecidableEq, Repr

/-- Modelled from the spec: the tracker configuration — weight bounds, the
smoothing blend factor and the outcome-history cap (default 50). -/
structure TrackerConfig where
  minWeight : ℚ
  maxWeight : ℚ
  smoothing : ℚ
  historyCap : ℕ
deriving DecidableEq, Repr

/-- Modelled from the spec: tracker state, one record per source. -/
structure PerformanceTracker where
  strategyPerf : SourcePerformance
  aiPerf : SourcePerformance
deriving DecidableEq, Repr

/-- Append one outcome to a source history, evicting the oldest entries
once the cap is exceeded, and mark the source as having new outcomes. -/
def recordOutcomeOn (cap : ℕ) (s : SourcePerformance) (won : Bool) : SourcePerformance :=
  let os := s.outcomes ++ [won]
  { s with outcomes := os.drop (os.length - cap), pending := true }

/-- Modelled from the spec: `recordOutcome(source, won)` appends to that
source's bounded history. -/
def recordOutcome (cfg : TrackerConfig) (st : PerformanceTracker)
    (src : SignalSource) (won : Bool) : PerformanceTracker :=
  match src with
  | SignalSource.strategy =>
      { st with strategyPerf := recordOutcomeOn cfg.historyCap st.strategyPerf won }
  | SignalSource.ai =>
      { st with aiPerf := recordOutcomeOn cfg.historyCap st.aiPerf won }

/-- Success rate of a source: wins divided by outcome count. -/
def successRate (s : SourcePerformance) : ℚ :=
  (s.outcomes.count true : ℚ) / (s.outcomes.length : ℚ)

/-- A source takes part in a recompute cycle only if it has recorded
outcomes and some of them are new since the previous cycle. -/
def hasNew (s : SourcePerformance) : Bool :=
  s.pending && !s.outcomes.isEmpty

/-- Clamp a weight into the configured `[min_weight, max_weight]` band. -/
def clampW (cfg : TrackerConfig) (x : ℚ) : ℚ :=
  max cfg.minWeight (min cfg.maxWeight x)

/-- Modelled from the spec: `recomputeWeights()`.  Sources with no new
outcomes since the last cycle keep their prior weight; an updated source's
target is its success rate normalised against the other source, blended
with the previous weight by the smoothing factor, clamped into the weight
band, and the updated weights are rescaled so that all weights sum to 1. -/
def recomputeWeights (cfg : TrackerConfig) (st : PerformanceTracker) : PerformanceTracker :=
  match hasNew st.strategyPerf, hasNew st.aiPerf with
  | false, false =>
      { strategyPerf := { st.strategyPerf with pending := false }
        aiPerf := { st.aiPerf with pending := false } }
  | true, false =>
      { strategyPerf := { st.strategyPerf with
          weight := clampW cfg (1 - st.aiPerf.weight), pending := false }
        aiPerf := { st.aiPerf with pending := false } }
  | false, true =>
      { strategyPerf := { st.strategyPerf with pending := false }
        aiPerf := { st.aiPerf with
          weight := clampW cfg (1 - st.strategyPerf.weight), pending := false } }
  | true, true =>
      let rs := successRate st.strategyPerf
      let ra := successRate st.aiPerf
      let ts := if rs + ra = 0 then st.strategyPerf.weight else rs / (rs + ra)
      let ta := if rs + ra = 0 then st.aiPerf.weight else ra / (rs + ra)
      let cs := clampW cfg (cfg.smoothing * ts + (1 - cfg.smoothing) * st.strategyPerf.weight)
      let ca := clampW cfg (cfg.smoothing * ta + (1 - cfg.smoothing) * st.aiPerf.weight)
      { strategyPerf := { st.strategyPerf with weight := cs / (cs + ca), pending := false }
        aiPerf := { st.aiPerf with weight := ca / (cs + ca), pending := false } }

/-- Fold a sequence of recorded outcomes into the tracker state. -/
def applyOutcomes (cfg : TrackerConfig) (st : PerformanceTracker) :
    List (SignalSource × Bool) → PerformanceTracker
  | [] => st
  | (src, won) :: rest => applyOutcomes cfg (recordOutcome cfg st src won) rest

/-- A tracker configuration is valid when the weight band is positive,
ordered, and centred so that the two bounds are complementary (the default
bands of a two-source system, such as 0.3/0.7, have this shape). -/
def ValidCfg (cfg : TrackerConfig) : Prop :=
  0 < cfg.minWeight ∧ cfg.minWeight ≤ cfg.maxWeight ∧
    cfg.minWeight + cfg.maxWeight = 1

/-- A weight set is valid when both weights lie in the configured band and
sum to 1 — the §3 invariant. -/
def ValidWeights (cfg : TrackerConfig) (st : PerformanceTracker) : Prop :=
  cfg.minWeight ≤ st.strategyPerf.weight ∧ st.strategyPerf.weight ≤ cfg.maxWeight ∧
  cfg.minWeight ≤ st.aiPerf.weight ∧ st.aiPerf.weight ≤ cfg.maxWeight ∧
  st.strategyPerf.weight + st.aiPerf.weight = 1

/-- Clamping always lands inside an ordered band. -/
theorem clampW_mem (cfg : TrackerConfig) (x : ℚ)
    (h : cfg.minWeight ≤ cfg.maxWeight) :
    cfg.minWeight ≤ clampW cfg x ∧ clampW cfg x ≤ cfg.maxWeight :=
  ⟨le_max_left _ _, max_le h (min_le_left _ _)⟩

/-- Clamping is the identity inside the band. -/
theorem clampW_eq_self (cfg : TrackerConfig) (x : ℚ)
    (h1 : cfg.minWeight ≤ x) (h2 : x ≤ cfg.maxWeight) :
    clampW cfg x = x := by
  unfold clampW
  rw [min_eq_right h2, max_eq_right h1]

/-- Rescaling two clamped weights by their sum keeps both inside a
complementary band and makes them sum to exactly 1. -/
theorem rescale_mem (cfg : TrackerConfig) (hc : ValidCfg cfg) (c1 c2 : ℚ)
    (h1l : cfg.minWeight ≤ c1) (h1u : c1 ≤ cfg.maxWeight)
    (h2l : cfg.minWeight ≤ c2) (h2u : c2 ≤ cfg.maxWeight) :
    cfg.minWeight ≤ c1 / (c1 + c2) ∧ c1 / (c1 + c2) ≤ cfg.maxWeight ∧
      c1 / (c1 + c2) + c2 / (c1 + c2) = 1 := by
  obtain ⟨hmin, hord, hsum⟩ := hc
  have hmax : 0 < cfg.maxWeight := lt_of_lt_of_le hmin hord
  have hc1 : 0 < c1 := lt_of_lt_of_le hmin h1l
  have hc2 : 0 < c2 := lt_of_lt_of_le hmin h2l
  have hS : 0 < c1 + c2 := by linarith
  refine ⟨?_, ?_, ?_⟩
  · rw [le_div_iff₀ hS]
    nlinarith [mul_le_mul_of_nonneg_left h2u (le_of_lt hmin),
      mul_le_mul_of_nonneg_left h1l (le_of_lt hmax)]
  · rw [div_le_iff₀ hS]
    nlinarith [mul_le_mul_of_nonneg_left h1u (le_of_lt hmin),
      mul_le_mul_of_nonneg_left h2l (le_of_lt hmax)]
  · rw [div_add_div_same, div_self (ne_of_gt hS)]

/-- Recording outcomes never changes any weight. -/
theorem applyOutcomes_weights (cfg : TrackerConfig) (st : PerformanceTracker)
    (os : List (SignalSource × Bool)) :
    (applyOutcomes cfg st os).strategyPerf.weight = st.strategyPerf.weight ∧
    (applyOutcomes cfg st os).aiPerf.weight = st.aiPerf.weight := by
  induction os generalizing st with
  | nil => exact ⟨rfl, rfl⟩
  | cons p rest ih =>
      obtain ⟨src, won⟩ := p
      obtain ⟨ha, hb⟩ := ih (recordOutcome cfg st src won)
      cases src
      · exact ⟨ha.trans rfl, hb.trans rfl⟩
      · exact ⟨ha.trans rfl, hb.trans rfl⟩

/-- One recompute cycle maps a valid weight set to a valid weight set. -/
theorem recomputeWeights_valid (cfg : TrackerConfig) (st : PerformanceTracker)
    (hc : ValidCfg cfg) (hv : ValidWeights cfg st) :
    ValidWeights cfg (recomputeWeights cfg st) := by
  obtain ⟨hmin, hord, hsum⟩ := hc
  obtain ⟨hsl, hsu, hal, hau, hw⟩ := hv
  unfold ValidWeights
  unfold recomputeWeights
  split
  · exact ⟨hsl, hsu, hal, hau, hw⟩
  · dsimp only
    rw [clampW_eq_self cfg _ (by linarith) (by linarith)]
    exact ⟨by linarith, by linarith, hal, hau, by ring⟩
  · dsimp only
    rw [clampW_eq_self cfg _ (by linarith) (by linarith)]
    exact ⟨hsl, hsu, by linarith, by linarith, by ring⟩
  · dsimp only
    obtain ⟨hcsl, hcsu⟩ := clampW_mem cfg
      (cfg.smoothing * (if successRate st.strategyPerf + successRate st.aiPerf = 0
          then st.strategyPerf.weight
          else successRate st.strategyPerf /
            (successRate st.strategyPerf + successRate st.aiPerf))
        + (1 - cfg.smoothing) * st.strategyPerf.weight) hord
    obtain ⟨hcal, hcau⟩ := clampW_mem cfg
      (cfg.smoothing * (if successRate st.strategyPerf + successRate st.aiPerf = 0
          then st.aiPerf.weight
          else successRate st.aiPerf /
            (successRate st.strategyPerf + successRate st.aiPerf))
        + (1 - cfg.smoothing) * st.aiPerf.weight) hord
    obtain ⟨q1, q2, q3⟩ := rescale_mem cfg ⟨hmin, hord, hsum⟩ _ _ hcsl hcsu hcal hcau
    obtain ⟨r1, r2, _⟩ := rescale_mem cfg ⟨hmin, hord, hsum⟩ _ _ hcal hcau hcsl hcsu
    refine ⟨q1, q2, ?_, ?_, q3⟩
    · simpa [add_comm] using r1
    · simpa [add_comm] using r2

/-- C3: for every valid configuration, valid starting weight set and
sequence of recorded outcomes, the weight set produced by
`recomputeWeights()` has every source weight inside the configured
`[min_weight, max_weight]` band and the weights sum to exactly 1. -/
theorem recompute_bounds_and_sum (cfg : TrackerConfig) (st : PerformanceTracker)
    (os : List (SignalSource × Bool)) (hc : ValidCfg cfg)
    (hv : ValidWeights cfg st) :
    ValidWeights cfg (recomputeWeights cfg (applyOutcomes cfg st os)) := by
  obtain ⟨ha, hb⟩ := applyOutcomes_weights cfg st os
  obtain ⟨h1, h2, h3, h4, h5⟩ := hv
  exact recomputeWeights_valid cfg _ hc
    ⟨ha ▸ h1, ha ▸ h2, hb ▸ h3, hb ▸ h4, by rw [ha, hb]; exact h5⟩

/-- Witness for C3 with the 0.3/0.7 band, smoothing ½, cap 50, starting
weights 0.45/0.55 and two recorded outcomes. -/
theorem recompute_bounds_and_sum_witness :
    ValidWeights ⟨3 / 10, 7 / 10, 1 / 2, 50⟩
      (recomputeWeights ⟨3 / 10, 7 / 10, 1 / 2, 50⟩
        (applyOutcomes ⟨3 / 10, 7 / 10, 1 / 2, 50⟩
          ⟨⟨[], 9 / 20, false⟩, ⟨[], 11 / 20, false⟩⟩
          [(SignalSource.strategy, true), (SignalSource.ai, false)])) :=
  recompute_bounds_and_sum ⟨3 / 10, 7 / 10, 1 / 2, 50⟩
    ⟨⟨[], 9 / 20, false⟩, ⟨[], 11 / 20, false⟩⟩
    [(SignalSource.strategy, true), (SignalSource.ai, false)]
    (by constructor <;> norm_num)
    (by refine ⟨?_, ?_, ?_, ?_, ?_⟩ <;> norm_num)

/-- Clearing an already-clear pending flag is the identity. -/
theorem clearPending_eq (s : SourcePerformance) (h : s.pending = false) :
    { s with pending := false } = s := by
  cases s
  simp_all

/-- After a recompute both pending flags are clear. -/
theorem recomputeWeights_pending (cfg : TrackerConfig) (st : PerformanceTracker) :
    (recomputeWeights cfg st).strategyPerf.pending = false ∧
    (recomputeWeights cfg st).aiPerf.pending = false := by
  unfold recomputeWeights
  split <;> exact ⟨rfl, rfl⟩

/-- C5: `recomputeWeights()` is idempotent when no outcomes arrive in
between — a second recompute returns the state of the first unchanged —
and a source with an empty outcome history keeps its prior weight. -/
theorem recompute_idempotent (cfg : TrackerConfig) (st : PerformanceTracker) :
    recomputeWeights cfg (recomputeWeights cfg st) = recomputeWeights cfg st ∧
    (st.strategyPerf.outcomes = [] →
      (recomputeWeights cfg st).strategyPerf.weight = st.strategyPerf.weight) ∧
    (st.aiPerf.outcomes = [] →
      (recomputeWeights cfg st).aiPerf.weight = st.aiPerf.weight) := by
  refine ⟨?_, ?_, ?_⟩
  · obtain ⟨hps, hpa⟩ := recomputeWeights_pending cfg st
    have hns : hasNew (recomputeWeights cfg st).strategyPerf = false := by
      unfold hasNew
      rw [hps]
      rfl
    have hna : hasNew (recomputeWeights cfg st).aiPerf = false := by
      unfold hasNew
      rw [hpa]
      rfl
    conv_lhs => rw [recomputeWeights]
    rw [hns, hna]
    show ({ strategyPerf := { (recomputeWeights cfg st).strategyPerf with pending := false }
            aiPerf := { (recomputeWeights cfg st).aiPerf with pending := false } } :
          PerformanceTracker) = _
    rw [clearPending_eq _ hps, clearPending_eq _ hpa]
  · intro h
    have hn : hasNew st.strategyPerf = false := by
      unfold hasNew
      rw [h]
      simp
    unfold recomputeWeights
    rw [hn]
    split <;> first | rfl | contradiction
  · intro h
    have hn : hasNew st.aiPerf = false := by
      unfold hasNew
      rw [h]
      simp
    unfold recomputeWeights
    rw [hn]
    split <;> first | rfl | contradiction

/-- Witness for C5: the implications discharged at a concrete tracker
state with empty histories and weights 0.45/0.55. -/
theorem recompute_idempotent_witness :
    (recomputeWeights ⟨3 / 10, 7 / 10, 1 / 2, 50⟩
        (recomputeWeights ⟨3 / 10, 7 / 10, 1 / 2, 50⟩
          ⟨⟨[], 9 / 20, false⟩, ⟨[], 11 / 20, false⟩⟩)
      = recomputeWeights ⟨3 / 10, 7 / 10, 1 / 2, 50⟩
          ⟨⟨[], 9 / 20, false⟩, ⟨[], 11 / 20, false⟩⟩) ∧
    (recomputeWeights ⟨3 / 10, 7 / 10, 1 / 2, 50⟩
        ⟨⟨[], 9 / 20, false⟩, ⟨[], 11 / 20, false⟩⟩).strategyPerf.weight = 9 / 20 ∧
    (recomputeWeights ⟨3 / 10, 7 / 10, 1 / 2, 50⟩
        ⟨⟨[], 9 / 20, false⟩, ⟨[], 11 / 20, false⟩⟩).aiPerf.weight = 11 / 20 := by
  obtain ⟨h1, h2, h3⟩ := recompute_idempotent ⟨3 / 10, 7 / 10, 1 / 2, 50⟩
    ⟨⟨[], 9 / 20, false⟩, ⟨[], 11 / 20, false⟩⟩
  exact ⟨h1, h2 rfl, h3 rfl⟩

/-! ## Event bus (`WebSocketService`, src/unnamed/part_005)

The service keeps `listeners : Map topic → Set callback`; `subscribe` adds
the callback to the topic's set (creating it on first use), and both
`handleMessage` and `emit` iterate the set with `forEach`, invoking each
callback with the payload.  The map is modelled as a function from topics
to insertion-ordered duplicate-free lists (the JavaScript `Set` iterates in
insertion order); callbacks are identified by an id, and an invocation is
the pair of the callback id and the payload it received.  The network send
performed by `subscribe` is I/O outside the listener state and is not
modelled. -/

/-- Topics are the string channel names of the service. -/
abbrev Topic := String

/-- A callback is identified by an id; JavaScript compares the set members
by function reference, which the id equality models. -/
abbrev HandlerId := Nat

/-- Message payloads. -/
abbrev Payload := String

/-- The listener map of the service. -/
structure Bus where
  listeners : Topic → List HandlerId

/-- The freshly constructed service has no listeners. -/
def emptyBus : Bus := ⟨fun _ => []⟩

/-- The `subscribe(topic, callback)` method: create the topic's set if
missing and add the callback; a callback already in the set is not added
again. -/
def subscribe (b : Bus) (t : Topic) (h : HandlerId) : Bus :=
  ⟨fun u =>
    if u = t then
      if h ∈ b.listeners t then b.listeners t else b.listeners t ++ [h]
    else b.listeners u⟩

/-- The `emit(event, data)` dispatch: every listener of the topic is called
with the payload, in set (insertion) order.  This is the non-throwing
execution; handler exceptions are modelled separately by `runHandlers`. -/
def emit (b : Bus) (t : Topic) (p : Payload) : List (HandlerId × Payload) :=
  (b.listeners t).map (fun h => (h, p))

/-- Listener sets hold no duplicates — the `Set` representation
invariant. -/
def WF (b : Bus) : Prop := ∀ t, (b.listeners t).Nodup

/-- The payloads a given callback observes in an invocation trace. -/
def observed (hid : HandlerId) : List (HandlerId × Payload) → List Payload
  | [] => []
  | c :: rest => if c.1 = hid then c.2 :: observed hid rest else observed hid rest

/-- Trace of a sequence of publishes on one topic (the listener map is not
changed by dispatch). -/
def publishSeq (b : Bus) (t : Topic) : List Payload → List (HandlerId × Payload)
  | [] => []
  | p :: ps => emit b t p ++ publishSeq b t ps

/-- The observed trace distributes over appended traces. -/
theorem observed_append (hid : HandlerId) (l1 l2 : List (HandlerId × Payload)) :
    observed hid (l1 ++ l2) = observed hid l1 ++ observed hid l2 := by
  induction l1 with
  | nil => rfl
  | cons c rest ih =>
      by_cases hc : c.1 = hid <;> simp [observed, hc, ih]

/-- An unsubscribed callback observes nothing in a dispatch. -/
theorem observed_map_not_mem (l : List HandlerId) (hid : HandlerId) (p : Payload)
    (hm : hid ∉ l) :
    observed hid (l.map fun x => (x, p)) = [] := by
  induction l with
  | nil => rfl
  | cons a rest ih =>
      have ha : a ≠ hid := fun h => hm (h ▸ List.mem_cons_self a rest)
      simp only [List.map_cons, observed, ha, if_false]
      exact ih (fun h => hm (List.mem_cons_of_mem a h))

/-- A subscribed callback observes exactly the dispatched payload. -/
theorem observed_map_mem (l : List HandlerId) (hid : HandlerId) (p : Payload)
    (hnd : l.Nodup) (hm : hid ∈ l) :
    observed hid (l.map fun x => (x, p)) = [p] := by
  induction l with
  | nil => cases hm
  | cons a rest ih =>
      by_cases ha : a = hid
      · subst ha
        have hrest : a ∉ rest := (List.nodup_cons.mp hnd).1
        simp only [List.map_cons, observed, if_pos rfl]
        rw [observed_map_not_mem rest a p hrest]
        rfl
      · have hmem : hid ∈ rest := by
          cases List.mem_cons.mp hm with
          | inl h => exact absurd h.symm ha
          | inr h => exact h
        simp only [List.map_cons, observed, ha, if_false]
        exact ih (List.nodup_cons.mp hnd).2 hmem

/-- C6: a publish on a topic invokes every currently subscribed callback
exactly once with that payload — the callback's observation of the single
dispatch is exactly `[p]` — and over a sequence of publishes on the topic a
subscribed callback observes the payloads in publish order. -/
theorem publish_delivers_once_in_order (b : Bus) (t : Topic) (hid : HandlerId)
    (p : Payload) (ps : List Payload) (hwf : WF b) (hm : hid ∈ b.listeners t) :
    observed hid (emit b t p) = [p] ∧
    observed hid (publishSeq b t ps) = ps := by
  constructor
  · exact observed_map_mem (b.listeners t) hid p (hwf t) hm
  · induction ps with
    | nil => rfl
    | cons q qs ih =>
        show observed hid (emit b t q ++ publishSeq b t qs) = q :: qs
        rw [observed_append, ih]
        rw [show emit b t q = (b.listeners t).map fun x => (x, q) from rfl,
          observed_map_mem (b.listeners t) hid q (hwf t) hm]
        rfl

/-- Witness for C6: a bus with callbacks 7 and 8 on topic
`order_updates` delivers one publish once to callback 7 and two publishes
in order. -/
theorem publish_delivers_once_in_order_witness :
    observed 7 (emit (subscribe (subscribe emptyBus "order_updates" 7)
        "order_updates" 8) "order_updates" "fill1") = ["fill1"] ∧
    observed 7 (publishSeq
        (subscribe (subscribe emptyBus "order_updates" 7) "order_updates" 8)
        "order_updates" ["fill1", "fill2"]) = ["fill1", "fill2"] := by
  have hl : (subscribe (subscribe emptyBus "order_updates" 7)
      "order_updates" 8).listeners "order_updates" = [7, 8] := by
    simp [subscribe, emptyBus]
  exact publish_delivers_once_in_order _ "order_updates" 7 "fill1"
    ["fill1", "fill2"]
    (by
      intro u
      by_cases hu : u = "order_updates"
      · rw [hu, hl]
        decide
      · simp [subscribe, emptyBus, hu])
    (by rw [hl]; decide)

/-! ### Handler exceptions

The `forEach` loops in `emit` (part_005 lines 174–180) and in the default
branch of `handleMessage` (lines 166–171) invoke the callbacks with no
per-callback try/catch.  In JavaScript an exception thrown by one callback
aborts the `forEach` and propagates to the caller of `emit`; only the
`onmessage` handler (lines 69–76) wraps `handleMessage` in a try/catch.
`runHandlers` models this execution: each callback either returns or
throws, a throwing callback is invoked (it throws while running) and then
dispatch stops, and the second component records whether an exception
escaped to the caller. -/

/-- Run the topic's callbacks in order against a payload, with `throws`
saying which callbacks raise; returns the invocations made and whether an
exception escaped the dispatch loop. -/
def runHandlers (throws : HandlerId → Bool) (p : Payload) :
    List HandlerId → List (HandlerId × Payload) × Bool
  | [] => ([], false)
  | h :: rest =>
      if throws h then ([(h, p)], true)
      else
        let r := runHandlers throws p rest
        ((h, p) :: r.1, r.2)

/-- The `emit` dispatch under the exception model. -/
def emitRun (b : Bus) (throws : HandlerId → Bool) (t : Topic) (p : Payload) :
    List (HandlerId × Payload) × Bool :=
  runHandlers throws p (b.listeners t)

/-- The `onmessage` path: `handleMessage` runs inside the try/catch of the
message handler, so an escaping exception is caught there and never crashes
the receive loop. -/
def onMessageRun (b : Bus) (throws : HandlerId → Bool) (t : Topic) (p : Payload) :
    List (HandlerId × Payload) × Bool :=
  ((emitRun b throws t p).1, false)

/-- C7 counterexample: on a topic with callbacks 1 and 2 where callback 1
throws, the dispatch stops after invoking callback 1 — subscribed callback
2 receives nothing — and the exception escapes `emit` to its caller. -/
theorem handler_throw_stops_dispatch_cex :
    (2 : HandlerId) ∈ (subscribe (subscribe emptyBus "order_updates" 1)
      "order_updates" 2).listeners "order_updates" ∧
    emitRun (subscribe (subscribe emptyBus "order_updates" 1) "order_updates" 2)
      (fun x => x == 1) "order_updates" "fill1"
      = ([(1, "fill1")], true) := by
  have hl : (subscribe (subscribe emptyBus "order_updates" 1)
      "order_updates" 2).listeners "order_updates" = [1, 2] := by
    simp [subscribe, emptyBus]
  constructor
  · rw [hl]
    decide
  · rw [emitRun, hl]
    rfl

/-- A prefix of non-throwing callbacks runs before the first throwing
callback aborts the loop. -/
theorem runHandlers_before_throw (throws : HandlerId → Bool) (p : Payload)
    (hid : HandlerId) (post : List HandlerId) (hth : throws hid = true) :
    ∀ pre : List HandlerId, (∀ x ∈ pre, throws x = false) →
      runHandlers throws p (pre ++ hid :: post)
        = ((pre ++ [hid]).map fun x => (x, p), true) := by
  intro pre
  induction pre with
  | nil =>
      intro _
      show runHandlers throws p (hid :: post) = _
      rw [runHandlers, if_pos hth]
      rfl
  | cons a rest ih =>
      intro hpre
      have ha : throws a = false := hpre a (List.mem_cons_self a rest)
      show runHandlers throws p (a :: (rest ++ hid :: post)) = _
      rw [runHandlers, if_neg (by rw [ha]; exact Bool.false_ne_true)]
      rw [ih (fun x hx => hpre x (List.mem_cons_of_mem a hx))]
      rfl

/-- C7 amended: when a callback throws during a publish, the callbacks
before it in the topic's set have already been invoked, the callbacks after
it are not invoked, and the exception escapes `emit` to its caller; on the
WebSocket `onmessage` path the escaping exception is caught by the
message-level try/catch, so it does not crash the receive loop. -/
theorem handler_throw_stops_dispatch (b : Bus) (throws : HandlerId → Bool)
    (t : Topic) (p : Payload) (pre post : List HandlerId) (hid : HandlerId)
    (hl : b.listeners t = pre ++ hid :: post)
    (hpre : ∀ x ∈ pre, throws x = false) (hth : throws hid = true) :
    emitRun b throws t p = ((pre ++ [hid]).map fun x => (x, p), true) ∧
    (onMessageRun b throws t p).2 = false := by
  constructor
  · rw [emitRun, hl]
    exact runHandlers_before_throw throws p hid post hth pre hpre
  · rfl

/-- Witness for the amended C7 with callback 1 throwing ahead of
callback 2. -/
theorem handler_throw_stops_dispatch_witness :
    emitRun (subscribe (subscribe emptyBus "order_updates" 1) "order_updates" 2)
      (fun x => x == 1) "order_updates" "fill1"
      = (([] ++ [1] : List HandlerId).map fun x => (x, "fill1"), true) ∧
    (onMessageRun (subscribe (subscribe emptyBus "order_updates" 1)
      "order_updates" 2) (fun x => x == 1) "order_updates" "fill1").2 = false :=
  handler_throw_stops_dispatch
    (subscribe (subscribe emptyBus "order_updates" 1) "order_updates" 2)
    (fun x => x == 1) "order_updates" "fill1" [] [2] 1
    (by simp [subscribe, emptyBus]) (by intro x hx; cases hx) rfl

/-! ### No persistence or replay -/

/-- An operation on the bus: a subscription or a publish. -/
inductive BusOp
  | sub (t : Topic) (h : HandlerId)
  | pub (t : Topic) (p : Payload)
deriving DecidableEq, Repr

/-- Effect of one operation on the listener map (a publish does not change
it). -/
def applyOp (b : Bus) : BusOp → Bus
  | BusOp.sub t h => subscribe b t h
  | BusOp.pub _ _ => b

/-- Listener map after a sequence of operations. -/
def applyOps (b : Bus) : List BusOp → Bus
  | [] => b
  | op :: rest => applyOps (applyOp b op) rest

/-- Full invocation trace of a sequence of operations: a subscription emits
nothing (no replay of past events), a publish dispatches to the current
listeners. -/
def opsTrace (b : Bus) : List BusOp → List (HandlerId × Payload)
  | [] => []
  | BusOp.sub t h :: rest => opsTrace (subscribe b t h) rest
  | BusOp.pub t p :: rest => emit b t p ++ opsTrace b rest

/-- Traces decompose along concatenation of operation sequences. -/
theorem opsTrace_append (l1 l2 : List BusOp) :
    ∀ b : Bus, opsTrace b (l1 ++ l2) = opsTrace b l1 ++ opsTrace (applyOps b l1) l2 := by
  induction l1 with
  | nil => intro b; rfl
  | cons op rest ih =>
      intro b
      cases op with
      | sub t h =>
          show opsTrace (subscribe b t h) (rest ++ l2) = _
          rw [ih (subscribe b t h)]
          rfl
      | pub t p =>
          show emit b t p ++ opsTrace b (rest ++ l2) = _
          rw [ih b]
          simp [opsTrace, applyOps, applyOp]

/-- Subscribing some other callback keeps an absent callback absent. -/
theorem subscribe_not_mem (b : Bus) (t : Topic) (g hid : HandlerId)
    (hne : g ≠ hid) (hab : ∀ u, hid ∉ b.listeners u) :
    ∀ u, hid ∉ (subscribe b t g).listeners u := by
  intro u
  simp only [subscribe]
  by_cases hu : u = t
  · rw [if_pos hu]
    by_cases hc : g ∈ b.listeners t
    · rw [if_pos hc]
      exact hab t
    · rw [if_neg hc]
      intro hmem
      cases List.mem_append.mp hmem with
      | inl h => exact hab t h
      | inr h => exact hne (List.mem_singleton.mp h).symm
  · rw [if_neg hu]
    exact hab u

/-- A callback that is absent everywhere and never subscribed during a
sequence of operations observes nothing from that sequence and stays
absent. -/
theorem absent_observes_nothing (hid : HandlerId) :
    ∀ (ops : List BusOp) (b : Bus), (∀ u, hid ∉ b.listeners u) →
      (∀ t, BusOp.sub t hid ∉ ops) →
      observed hid (opsTrace b ops) = [] ∧
        ∀ u, hid ∉ (applyOps b ops).listeners u := by
  intro ops
  induction ops with
  | nil => exact fun b hab _ => ⟨rfl, hab⟩
  | cons op rest ih =>
      intro b hab hns
      cases op with
      | sub t g =>
          have hg : g ≠ hid := by
            intro h
            exact hns t (h ▸ List.mem_cons_self _ _)
          have hab2 := subscribe_not_mem b t g hid hg hab
          have hns2 : ∀ u, BusOp.sub u hid ∉ rest :=
            fun u hu => hns u (List.mem_cons_of_mem _ hu)
          exact ih (subscribe b t g) hab2 hns2
      | pub t p =>
          have hns2 : ∀ u, BusOp.sub u hid ∉ rest :=
            fun u hu => hns u (List.mem_cons_of_mem _ hu)
          obtain ⟨h1, h2⟩ := ih b hab hns2
          refine ⟨?_, h2⟩
          show observed hid (emit b t p ++ opsTrace b rest) = []
          rw [observed_append, h1,
            show emit b t p = (b.listeners t).map fun x => (x, p) from rfl,
            observed_map_not_mem (b.listeners t) hid p (hab t)]
          rfl

/-- C8: the bus keeps no history — a callback that was never subscribed
during an earlier run of operations observes, over the whole run, exactly
what is dispatched from its subscription run onward; in particular it is
never invoked for a payload published before it subscribed. -/
theorem late_subscriber_misses_prior (ops1 ops2 : List BusOp) (hid : HandlerId)
    (hns : ∀ t, BusOp.sub t hid ∉ ops1) :
    observed hid (opsTrace emptyBus (ops1 ++ ops2))
      = observed hid (opsTrace (applyOps emptyBus ops1) ops2) := by
  have hab : ∀ u, hid ∉ emptyBus.listeners u := fun u h => by cases h
  obtain ⟨h1, _⟩ := absent_observes_nothing hid ops1 emptyBus hab hns
  rw [opsTrace_append, observed_append, h1]
  rfl

/-- Witness for C8: callback 5 subscribes to `stock_prices` only after a
first publish; it observes only the later publish. -/
theorem late_subscriber_misses_prior_witness :
    observed 5 (opsTrace emptyBus
      ([BusOp.pub "stock_prices" "tick1"]
        ++ [BusOp.sub "stock_prices" 5, BusOp.pub "stock_prices" "tick2"]))
      = observed 5 (opsTrace
          (applyOps emptyBus [BusOp.pub "stock_prices" "tick1"])
          [BusOp.sub "stock_prices" 5, BusOp.pub "stock_prices" "tick2"]) :=
  late_subscriber_misses_prior [BusOp.pub "stock_prices" "tick1"]
    [BusOp.sub "stock_prices" 5, BusOp.pub "stock_prices" "tick2"] 5
    (by intro t; simp)

/-! ### Duplicate subscriptions -/

/-- After one subscription the callback is in the topic's set. -/
theorem subscribe_mem (b : Bus) (t : Topic) (hid : HandlerId) :
    hid ∈ (subscribe b t hid).listeners t := by
  simp only [subscribe, if_pos rfl]
  by_cases hc : hid ∈ b.listeners t
  · rw [if_pos hc]
    exact hc
  · rw [if_neg hc]
    exact List.mem_append_right _ (List.mem_singleton.mpr rfl)

/-- Subscribing a callback that is already in the topic's set leaves the
listener map unchanged — the `Set` absorbs the duplicate. -/
theorem subscribe_of_mem (B : Bus) (t : Topic) (hid : HandlerId)
    (h : hid ∈ B.listeners t) :
    subscribe B t hid = B := by
  cases B with
  | mk f =>
      show Bus.mk _ = Bus.mk f
      congr 1
      funext u
      show (if u = t then if hid ∈ f t then f t else f t ++ [hid] else f u) = f u
      by_cases hu : u = t
      · rw [if_pos hu, if_pos h, hu]
      · rw [if_neg hu]

/-- Repeated subscription of the identical callback is absorbed. -/
theorem subscribe_subscribe (b : Bus) (t : Topic) (hid : HandlerId) :
    subscribe (subscribe b t hid) t hid = subscribe b t hid :=
  subscribe_of_mem (subscribe b t hid) t hid (subscribe_mem b t hid)

/-- Subscribing preserves the duplicate-free listener invariant. -/
theorem subscribe_WF (b : Bus) (t : Topic) (hid : HandlerId) (hwf : WF b) :
    WF (subscribe b t hid) := by
  intro u
  simp only [subscribe]
  by_cases hu : u = t
  · rw [if_pos hu]
    by_cases hc : hid ∈ b.listeners t
    · rw [if_pos hc]
      exact hwf t
    · rw [if_neg hc]
      exact (hwf t).append (List.nodup_singleton hid)
        (List.disjoint_singleton.mpr hc)
  · rw [if_neg hu]
    exact hwf u

/-- C9: subscribing the identical callback to the same topic repeatedly is
idempotent — the listener map after any positive number of subscriptions
equals the map after one — and a single dispatch then invokes the callback
exactly once with the payload, because the per-topic listeners form a
set. -/
theorem duplicate_subscribe_idempotent (b : Bus) (t : Topic) (hid : HandlerId)
    (p : Payload) (n : ℕ) (hwf : WF b) (hn : 0 < n) :
    (fun x => subscribe x t hid)^[n] b = subscribe b t hid ∧
    observed hid (emit (subscribe b t hid) t p) = [p] := by
  constructor
  · induction n with
    | zero => cases hn
    | succ m ih =>
        cases Nat.eq_zero_or_pos m with
        | inl h =>
            subst h
            rfl
        | inr h =>
            rw [Function.iterate_succ_apply', ih h]
            exact subscribe_subscribe b t hid
  · exact observed_map_mem _ hid p (subscribe_WF b t hid hwf t)
      (subscribe_mem b t hid)

/-- Witness for C9: three subscriptions of callback 4 to `stock_prices`
collapse to one, and one dispatch reaches it exactly once. -/
theorem duplicate_subscribe_idempotent_witness :
    (fun x => subscribe x "stock_prices" 4)^[3] emptyBus
      = subscribe emptyBus "stock_prices" 4 ∧
    observed 4 (emit (subscribe emptyBus "stock_prices" 4)
      "stock_prices" "tick1") = ["tick1"] :=
  duplicate_subscribe_idempotent emptyBus "stock_prices" 4 "tick1" 3
    (fun _ => List.nodup_nil) (by norm_num)

/-! ## Trading store (`useTradingStore`, src/unnamed/part_000)

The Pinia store holds `positions`, `orders`, `marketData` and
`isConnected`.  On a successful cancel service call, `cancelOrder(orderId)`
runs `findIndex(order => order.id === orderId)` over `orders` and, when an
index is found, assigns `status = 'cancelled'` on that order.  The model
below covers the successful path (the service call resolving); positions
and market data entries are abstracted to opaque strings. -/

/-- An order: its id, status, and the rest of its fields collapsed into one
opaque payload. -/
structure Order where
  id : Nat
  status : String
  payload : String
deriving DecidableEq, Repr

/-- The store state. -/
structure TradingStore where
  positions : List String
  orders : List Order
  marketData : List (String × String)
  isConnected : Bool
deriving DecidableEq, Repr

/-- The `status = 'cancelled'` assignment. -/
def setCancelled (o : Order) : Order :=
  { o with status := "cancelled" }

/-- The `findIndex`-then-assign pass over the orders list: the first order
whose id matches gets its status set to `cancelled`; with no match the list
is returned unchanged. -/
def cancelInList (orderId : Nat) : List Order → List Order
  | [] => []
  | o :: rest =>
      if o.id = orderId then setCancelled o :: rest
      else o :: cancelInList orderId rest

/-- The successful path of `cancelOrder(orderId)`: only the orders list is
touched. -/
def cancelOrder (st : TradingStore) (orderId : Nat) : TradingStore :=
  { st with orders := cancelInList orderId st.orders }

/-- Without a matching id the pass leaves the list unchanged. -/
theorem cancelInList_no_match (orderId : Nat) :
    ∀ l : List Order, (∀ o ∈ l, o.id ≠ orderId) → cancelInList orderId l = l := by
  intro l
  induction l with
  | nil => intro _; rfl
  | cons o rest ih =>
      intro h
      rw [cancelInList, if_neg (h o (List.mem_cons_self o rest)),
        ih (fun o' ho' => h o' (List.mem_cons_of_mem o ho'))]

/-- At the first matching index the pass cancels that order and leaves
every other position of the list unchanged. -/
theorem cancelInList_first_match (orderId : Nat) :
    ∀ (l : List Order) (i : Nat) (o : Order), l[i]? = some o → o.id = orderId →
      (∀ j, j < i → ∀ o', l[j]? = some o' → o'.id ≠ orderId) →
      (cancelInList orderId l)[i]? = some (setCancelled o) ∧
        ∀ j, j ≠ i → (cancelInList orderId l)[j]? = l[j]? := by
  intro l
  induction l with
  | nil =>
      intro i o hget
      rw [List.getElem?_nil] at hget
      cases hget
  | cons x rest ih =>
      intro i o hget hid hfirst
      cases i with
      | zero =>
          rw [List.getElem?_cons_zero] at hget
          cases hget
          rw [cancelInList, if_pos hid]
          refine ⟨List.getElem?_cons_zero, ?_⟩
          intro j hj
          cases j with
          | zero => exact absurd rfl hj
          | succ k => rw [List.getElem?_cons_succ, List.getElem?_cons_succ]
      | succ m =>
          rw [List.getElem?_cons_succ] at hget
          have hx : x.id ≠ orderId :=
            hfirst 0 (Nat.succ_pos m) x List.getElem?_cons_zero
          have hfirst2 : ∀ j, j < m → ∀ o', rest[j]? = some o' → o'.id ≠ orderId := by
            intro j hj o' ho'
            exact hfirst (j + 1) (Nat.succ_lt_succ hj) o'
              (by rw [List.getElem?_cons_succ]; exact ho')
          obtain ⟨h1, h2⟩ := ih m o hget hid hfirst2
          rw [cancelInList, if_neg hx]
          refine ⟨?_, ?_⟩
          · rw [List.getElem?_cons_succ]
            exact h1
          · intro j hj
            cases j with
            | zero => rw [List.getElem?_cons_zero, List.getElem?_cons_zero]
            | succ k =>
                rw [List.getElem?_cons_succ, List.getElem?_cons_succ]
                exact h2 k (fun h => hj (congrArg Nat.succ h))

/-- C10: on the successful service call, `cancelOrder(orderId)` leaves
positions, market data and the connection flag unchanged; when no order
carries the id the orders list is unchanged; and when some order does, the
first such order gets status `cancelled` while every other index of the
orders list is untouched. -/
theorem cancelOrder_frame (st : TradingStore) (orderId : Nat) :
    (cancelOrder st orderId).positions = st.positions ∧
    (cancelOrder st orderId).marketData = st.marketData ∧
    (cancelOrder st orderId).isConnected = st.isConnected ∧
    ((∀ o ∈ st.orders, o.id ≠ orderId) →
      (cancelOrder st orderId).orders = st.orders) ∧
    (∀ (i : Nat) (o : Order), st.orders[i]? = some o → o.id = orderId →
      (∀ j, j < i → ∀ o', st.orders[j]? = some o' → o'.id ≠ orderId) →
      (cancelOrder st orderId).orders[i]? = some (setCancelled o) ∧
        ∀ j, j ≠ i → (cancelOrder st orderId).orders[j]? = st.orders[j]?) := by
  refine ⟨rfl, rfl, rfl, ?_, ?_⟩
  · intro h
    show cancelInList orderId st.orders = st.orders
    exact cancelInList_no_match orderId st.orders h
  · intro i o hget hid hfirst
    exact cancelInList_first_match orderId st.orders i o hget hid hfirst

/-- Witness for C10: a store with three orders, the cancel targeting id 2,
which first occurs at index 1. -/
theorem cancelOrder_frame_witness :
    (cancelOrder ⟨["p1"], [⟨1, "open", "a"⟩, ⟨2, "open", "b"⟩, ⟨2, "open", "c"⟩],
        [("HK.00700", "md")], true⟩ 2).orders[1]?
      = some (setCancelled ⟨2, "open", "b"⟩) ∧
    ∀ j, j ≠ 1 →
      (cancelOrder ⟨["p1"], [⟨1, "open", "a"⟩, ⟨2, "open", "b"⟩, ⟨2, "open", "c"⟩],
          [("HK.00700", "md")], true⟩ 2).orders[j]?
        = ([⟨1, "open", "a"⟩, ⟨2, "open", "b"⟩, ⟨2, "open", "c"⟩] : List Order)[j]? :=
  (cancelOrder_frame
    ⟨["p1"], [⟨1, "open", "a"⟩, ⟨2, "open", "b"⟩, ⟨2, "open", "c"⟩],
      [("HK.00700", "md")], true⟩ 2).2.2.2.2 1 ⟨2, "open", "b"⟩ rfl rfl
    (by
      intro j hj o' ho'
      have hj0 : j = 0 := by omega
      subst hj0
      have : o' = ⟨1, "open", "a"⟩ := by
        rw [List.getElem?_cons_zero] at ho'
        exact (Option.some.injEq _ _).mp ho'.symm
      rw [this]
      decide)

end QuantBanana
